import Mathlib

/-!
Shallow embedding of `src/API/gerrit_api.py` (class `GerritApi`).

Python values returned by json decoding are modelled by `PyVal`; a decoded
record (a Python dict) is a `PyDict`.  The HTTP transport is modelled as a
function from the pagination offset (the `S` query parameter) to the decoded
page the server answers with, and `json.loads` as an abstract
`String → Option PyVal` (with `Option.none` playing the role of `ValueError`).
Machine recursion with no structural bound (`no_limit_mocker`) is given an
explicit fuel argument; exhausting the fuel models non-termination.
-/

/-- A Python value as produced by json decoding (None, bool, int, str,
list, dict).  Floats never occur in the decoded Gerrit payloads the code
manipulates, so they are omitted. -/
inductive PyVal where
  | none
  | bool (b : Bool)
  | int (n : Int)
  | str (s : String)
  | list (xs : List PyVal)
  | dict (kvs : List (String × PyVal))

/-- A decoded record: a Python dict with string keys, in insertion order. -/
abbrev PyDict := List (String × PyVal)

/-! ### Character-list utilities modelling Python string primitives -/

/-- `startsWithL needle hay`: `hay.startswith(needle)` on char lists. -/
def startsWithL : List Char → List Char → Bool
  | [], _ => true
  | _ :: _, [] => false
  | a :: as, b :: bs => a == b && startsWithL as bs

/-- `containsSub needle hay`: the Python substring test `needle in hay`. -/
def containsSub (needle : List Char) : List Char → Bool
  | [] => startsWithL needle []
  | c :: rest => startsWithL needle (c :: rest) || containsSub needle rest

/-- Python `needle in hay` on strings. -/
def strContains (hay needle : String) : Bool := containsSub needle.data hay.data

/-- A single-quote character, written via its code point. -/
def squote : String := String.singleton (Char.ofNat 39)

/-- ASCII lower-casing of one character (`str.lower` on the inputs in scope). -/
def asciiLower (c : Char) : Char :=
  if 65 ≤ c.toNat && c.toNat ≤ 90 then Char.ofNat (c.toNat + 32) else c

/-- Python `str.lower()` for ASCII text. -/
def strLower (s : String) : String := ⟨s.data.map asciiLower⟩

/-- Is `c` one of the characters of `cs`?  (membership in Python `strip` set). -/
def charIn (c : Char) (cs : String) : Bool := cs.data.any (fun d => d == c)

/-- Python `s.strip(cs)`: remove leading and trailing characters of `s`
belonging to the character set of `cs`. -/
def stripChars (s cs : String) : String :=
  ⟨((s.data.dropWhile (fun c => charIn c cs)).reverse.dropWhile
      (fun c => charIn c cs)).reverse⟩

/-- Digit-run accumulator used by `pyInt`. -/
def parseDigits : List Char → Nat → Option Nat
  | [], acc => Option.some acc
  | c :: cs, acc =>
    if c.isDigit then parseDigits cs (acc * 10 + (c.toNat - 48)) else Option.none

/-- Python `int(s)` for the strings in scope: an optional sign followed by a
non-empty run of decimal digits; anything else raises `ValueError`, modelled
as `Option.none`. -/
def pyInt (s : String) : Option Int :=
  match s.data with
  | [] => Option.none
  | c :: cs =>
    if c == Char.ofNat 45 then
      match cs with
      | [] => Option.none
      | _ =>
        match parseDigits cs 0 with
        | Option.some n => Option.some (-(n : Int))
        | Option.none => Option.none
    else if c == Char.ofNat 43 then
      match cs with
      | [] => Option.none
      | _ =>
        match parseDigits cs 0 with
        | Option.some n => Option.some ((n : Int))
        | Option.none => Option.none
    else
      match parseDigits (c :: cs) 0 with
      | Option.some n => Option.some ((n : Int))
      | Option.none => Option.none

/-! ### Python `repr`/`str` of decoded values

`no_limit_mocker` (line 188) tests `"_more_" in str(response)`, where
`response` is a decoded page, i.e. a Python list of dicts; `str` of such a
value prints `[` `]`, `(repr of each element)`, `, ` separators, dicts as
`(key repr): (value repr)` pairs between braces, strings between single
quotes.  Escape sequences inside strings never matter for the `_more_`
membership test and are not modelled. -/

mutual

def pyReprVal : PyVal → String
  | PyVal.none => "None"
  | PyVal.bool b => if b then "True" else "False"
  | PyVal.int n => toString n
  | PyVal.str s => squote ++ s ++ squote
  | PyVal.list xs => "[" ++ pyReprItems xs ++ "]"
  | PyVal.dict kvs => "\x7b" ++ pyReprEntries kvs ++ "\x7d"

def pyReprItems : List PyVal → String
  | [] => ""
  | [x] => pyReprVal x
  | x :: y :: rest => pyReprVal x ++ ", " ++ pyReprItems (y :: rest)

def pyReprEntries : List (String × PyVal) → String
  | [] => ""
  | [(k, v)] => squote ++ k ++ squote ++ ": " ++ pyReprVal v
  | (k, v) :: kv2 :: rest =>
      squote ++ k ++ squote ++ ": " ++ pyReprVal v ++ ", " ++ pyReprEntries (kv2 :: rest)

end

/-- Python `repr` of one decoded record (a dict). -/
def pyReprRec (r : PyDict) : String := "\x7b" ++ pyReprEntries r ++ "\x7d"

/-- Comma-joined reprs of the records of a page. -/
def pyReprRecs : List PyDict → String
  | [] => ""
  | [r] => pyReprRec r
  | r :: r2 :: rest => pyReprRec r ++ ", " ++ pyReprRecs (r2 :: rest)

/-- Python `str(response)` for a decoded page (a list of dicts). -/
def pyReprPage (page : List PyDict) : String := "[" ++ pyReprRecs page ++ "]"

theorem data_append (a b : String) : (a ++ b).data = a.data ++ b.data := by
  cases a; cases b; rfl

namespace GerritApi

/-! ### Response decoding (lines 147-170) -/

/-- The 5-byte magic ( `)]` brace `'` newline ) stripped from json bodies
(constant at line 160 of the source). -/
def gerritMagic : String := ")]\x7d" ++ squote ++ "\n"

/-- Python `str(status_code)` where the status code of a failed transport
call is `None` (see `RestEngine.rest_request`). -/
def strOfCode : Option Int → String
  | Option.none => "None"
  | Option.some n => toString n

/-- `GerritApi.decode_response` (lines 147-170), parameterized by the
behaviour of `json.loads`: `parse out = Option.none` models the caught
`ValueError`.  The headers component of the response triple is never read
and is omitted. -/
def decode_response (parse : String → Option PyVal) (code : Option Int)
    (body : PyVal) : PyVal :=
  match body with
  | PyVal.str s =>
    if strOfCode code == "200" then
      if startsWithL gerritMagic.data s.data then
        match parse (⟨s.data.drop gerritMagic.data.length⟩ : String) with
        | Option.some j => j
        | Option.none => PyVal.str (⟨s.data.drop gerritMagic.data.length⟩ : String)
      else PyVal.str s
    else PyVal.str s
  | other => other

/-! ### Pagination (lines 108-119 and 172-201)

The transport plus decoder are collapsed into `server : Nat → List PyDict`,
mapping the `S` offset of the requested url to the decoded page.  The second
component of the result is the trace of offsets at which HTTP requests were
issued (the caller's initial `&S=0` request included). -/

/-- The needle of the continuation test at line 188. -/
def moreNeedle : String := "_more_"

/-- Line 188: `"_more_" in str(response)` for a decoded page. -/
def hasMore (page : List PyDict) : Bool := strContains (pyReprPage page) moreNeedle

/-- `GerritApi.no_limit_mocker` (lines 172-201) with explicit fuel
(`Option.none` = the recursion did not finish within `fuel` calls; the
source has no bound of its own).  Arguments after the server and fuel
mirror the source: previous `response`, accumulated `mocker_response`,
`def_limit`.  The trace of requested offsets is paired with the result. -/
def no_limit_mocker (server : Nat → List PyDict) :
    Nat → List PyDict → List PyDict → Nat → Option (List PyDict × List Nat)
  | 0, _, _, _ => Option.none
  | Nat.succ fuel, response, mocker_response, def_limit =>
    if hasMore response then
      let limit := def_limit + 500
      let int_response := server limit
      match no_limit_mocker server fuel int_response (mocker_response ++ int_response) limit with
      | Option.none => Option.none
      | Option.some (res, reqs) => Option.some (res, limit :: reqs)
    else
      let limit := def_limit + 500
      let int_response := server limit
      Option.some (mocker_response ++ int_response, [limit])

/-- The pagination engine: the caller's initial fetch at `S=0` plus
`no_limit_mocker`, merging as in `get_commit_details_in_given_period`
(lines 112-119): extend with the first page, then extend with the mocker
accumulator when it is non-empty. -/
def paginate_from (server : Nat → List PyDict) (fuel : Nat) :
    Option (List PyDict × List Nat) :=
  let response := server 0
  match no_limit_mocker server fuel response [] 0 with
  | Option.none => Option.none
  | Option.some (mocker_response, reqs) =>
    Option.some
      ((if mocker_response.isEmpty then response else response ++ mocker_response),
       0 :: reqs)

/-- A server holding exactly the given pages at offsets `0, 500, 1000, …`
and answering the empty page everywhere else (the claimed scenario: the
page sequence is the complete server content). -/
def pageServer (pages : List (List PyDict)) (s : Nat) : List PyDict :=
  pages.getD (s / 500) []

/-- A record carrying the conventional continuation marker. -/
def moreRec : PyDict := [("_more_changes", PyVal.bool true)]

/-- A server declaring continuation on every page indefinitely. -/
def alwaysMoreServer : Nat → List PyDict := fun _ => [moreRec]

/-- Modelled from the spec for contrast in claim C6 only: a page signals
continuation when its last record carries a truth-valued
`_more_changes` / `_more_accounts` flag. -/
def truthy : PyVal → Bool
  | PyVal.none => false
  | PyVal.bool b => b
  | PyVal.int n => !(n == 0)
  | PyVal.str s => !s.isEmpty
  | PyVal.list xs => !xs.isEmpty
  | PyVal.dict kvs => !kvs.isEmpty

/-- Modelled from the spec (claim C6): continuation detection by scanning
the last record of the page for a truth-valued marker field. -/
def specHasMore (page : List PyDict) : Bool :=
  match page.getLast? with
  | Option.none => false
  | Option.some r =>
      r.any (fun kv => (kv.1 == "_more_changes" || kv.1 == "_more_accounts") && truthy kv.2)

/-! ### Duration parsing, `get_start_time` (lines 131-145)

Instants and deltas are modelled as whole seconds (`Int`).  The source is an
`if` statement (minutes) followed by an independent `if`/`elif` chain
(hours / days / months), each branch re-assigning `start`; `int(...)`
failures raise `ValueError`; `timedelta` has no `months` keyword, so the
months branch raises `TypeError` after a successful `int`; falling through
every branch leaves `start` unbound (`UnboundLocalError` at `return`). -/

/-- Lines 133-135: the leading `if "minutes" ...` statement; `Option.none`
in the payload means `start` was not assigned. -/
def minutes_branch (low : String) (stop : Int) : Except String (Option Int) :=
  if strContains low "minutes" then
    match pyInt (stripChars low "minutes") with
    | Option.some n => Except.ok (Option.some (stop - 60 * n))
    | Option.none => Except.error "ValueError"
  else Except.ok Option.none

/-- Lines 136-144: the `if "hours" ... elif "days" ... elif "months" ...`
chain. -/
def hours_days_months_chain (low : String) (stop : Int) : Except String (Option Int) :=
  if strContains low "hours" then
    match pyInt (stripChars low "hours") with
    | Option.some n => Except.ok (Option.some (stop - 3600 * n))
    | Option.none => Except.error "ValueError"
  else if strContains low "days" then
    match pyInt (stripChars low "days") with
    | Option.some n => Except.ok (Option.some (stop - 86400 * n))
    | Option.none => Except.error "ValueError"
  else if strContains low "months" then
    match pyInt (stripChars low "months") with
    | Option.some _ => Except.error "TypeError"
    | Option.none => Except.error "ValueError"
  else Except.ok Option.none

/-- `GerritApi.get_start_time` (lines 131-145). -/
def get_start_time (duration : String) (stop : Int) : Except String Int :=
  match minutes_branch (strLower duration) stop with
  | Except.error e => Except.error e
  | Except.ok st1 =>
    match hours_days_months_chain (strLower duration) stop with
    | Except.error e => Except.error e
    | Except.ok st2 =>
      match st2 with
      | Option.some v => Except.ok v
      | Option.none =>
        match st1 with
        | Option.some v => Except.ok v
        | Option.none => Except.error "UnboundLocalError"

/-- The unit keywords of the parser, in the order the spec lists them. -/
def unit_keywords : List String := ["minutes", "hours", "days", "months"]

/-- The unit keywords occurring in the lowercased duration string. -/
def matchedUnits (duration : String) : List String :=
  unit_keywords.filter (fun u => strContains (strLower duration) u)

/-! ### Reference resolution (lines 120-127) -/

/-- Python `d.get(k)` on a dict known to be one (default `None`). -/
def dictGet : PyDict → String → PyVal
  | [], _ => PyVal.none
  | kv :: rest, k => if kv.1 == k then kv.2 else dictGet rest k

/-- Python `d[k] = v` on a dict: overwrite in place, else append. -/
def dictSet (r : PyDict) (k : String) (v : PyVal) : PyDict :=
  if r.any (fun kv => kv.1 == k) then
    r.map (fun kv => if kv.1 == k then (k, v) else kv)
  else r ++ [(k, v)]

/-- Python `x.get(k)` on an arbitrary value: only dicts have `.get`; on
anything else the attribute access raises `AttributeError`. -/
def pyGet : PyVal → String → Except String PyVal
  | PyVal.dict kvs, k => Except.ok (dictGet kvs k)
  | _, _ => Except.error "AttributeError"

/-- Is the value a Python dict? -/
def isDict : PyVal → Bool
  | PyVal.dict _ => true
  | _ => false

/-- The body of the loop at lines 120-127 for one commit record: resolve
`owner` (unconditionally) and `submitter` (when truthy) through the
account-detail lookup, `lookup id` standing for
`decode_response(rest_request(f"/accounts/(id)/detail"))`. -/
def resolve_commit (lookup : PyVal → PyVal) (c : PyDict) : Except String PyDict :=
  match pyGet (dictGet c "owner") "_account_id" with
  | Except.error e => Except.error e
  | Except.ok ownerId =>
    match pyGet (lookup ownerId) "name" with
    | Except.error e => Except.error e
    | Except.ok nm =>
      let c1 := dictSet c "owner" nm
      if truthy (dictGet c1 "submitter") then
        match pyGet (dictGet c1 "submitter") "_account_id" with
        | Except.error e => Except.error e
        | Except.ok subId =>
          match pyGet (lookup subId) "name" with
          | Except.error e => Except.error e
          | Except.ok nm2 => Except.ok (dictSet c1 "submitter" nm2)
      else Except.ok c1

/-- The loop at lines 120-127 over all accumulated commits; an uncaught
exception in any iteration aborts the whole operation. -/
def resolve_all (lookup : PyVal → PyVal) : List PyDict → Except String (List PyDict)
  | [] => Except.ok []
  | c :: cs =>
    match resolve_commit lookup c with
    | Except.error e => Except.error e
    | Except.ok c1 =>
      match resolve_all lookup cs with
      | Except.error e => Except.error e
      | Except.ok rest => Except.ok (c1 :: rest)

/-! ### Default `stop` argument (line 108)

CPython evaluates a default-parameter expression once, when the `def`
statement executes — here while the class body runs — and stores the result
on the function object; `stop=datetime.utcnow()` therefore denotes one fixed
instant. -/

/-- The function object of `get_commit_details_in_given_period`; its stored
default for `stop` is the value `datetime.utcnow()` had when the class body
was executed. -/
structure GetCommitsMethod where
  defaultStop : Int

/-- Executing the `def` at line 108: capture `utcnow` once. -/
def defineGetCommits (classDefTimeUtc : Int) : GetCommitsMethod :=
  ⟨classDefTimeUtc⟩

/-- The `stop` instant a call uses: the explicit argument when given,
otherwise the stored default.  The wall clock at call time plays no part. -/
def callStop (m : GetCommitsMethod) (callTimeUtc : Int) (stopArg : Option Int) : Int :=
  match stopArg with
  | Option.some s => s
  | Option.none => m.defaultStop

/-- Lines 108-112: the `(start, stop)` window a call queries (with
`start=None`, so `start` is computed by `get_start_time`). -/
def callWindow (m : GetCommitsMethod) (callTimeUtc : Int) (duration : String)
    (stopArg : Option Int) : Except String (Int × Int) :=
  match get_start_time duration (callStop m callTimeUtc stopArg) with
  | Except.error e => Except.error e
  | Except.ok start => Except.ok (start, callStop m callTimeUtc stopArg)

end GerritApi

/-! ### Occurrence lemmas for the substring test -/

/-- `n` occurs contiguously inside `h`. -/
def OccursIn (n h : List Char) : Prop := ∃ p t, h = p ++ n ++ t

theorem occursIn_self (n : List Char) : OccursIn n n := ⟨[], [], by simp⟩

theorem occursIn_appL (x : List Char) {n h : List Char} (ho : OccursIn n h) :
    OccursIn n (x ++ h) := by
  obtain ⟨p, t, rfl⟩ := ho
  exact ⟨x ++ p, t, by simp⟩

theorem occursIn_appR (x : List Char) {n h : List Char} (ho : OccursIn n h) :
    OccursIn n (h ++ x) := by
  obtain ⟨p, t, rfl⟩ := ho
  exact ⟨p, t ++ x, by simp⟩

theorem occursIn_trans {a b c : List Char} (h1 : OccursIn a b) (h2 : OccursIn b c) :
    OccursIn a c := by
  obtain ⟨p, t, rfl⟩ := h1
  obtain ⟨q, u, rfl⟩ := h2
  exact ⟨q ++ p, t ++ u, by simp⟩

theorem startsWithL_append_self (p t : List Char) : startsWithL p (p ++ t) = true := by
  induction p with
  | nil => rfl
  | cons a as ih => simp [startsWithL, ih]

theorem startsWithL_exists {n h : List Char} (hs : startsWithL n h = true) :
    ∃ t, h = n ++ t := by
  induction n generalizing h with
  | nil => exact ⟨h, rfl⟩
  | cons a as ih =>
    cases h with
    | nil => simp [startsWithL] at hs
    | cons b bs =>
      simp only [startsWithL, Bool.and_eq_true, beq_iff_eq] at hs
      obtain ⟨rfl, h2⟩ := hs
      obtain ⟨t, rfl⟩ := ih h2
      exact ⟨t, rfl⟩

theorem containsSub_of_startsWithL {n h : List Char} (hs : startsWithL n h = true) :
    containsSub n h = true := by
  cases h with
  | nil => simpa [containsSub] using hs
  | cons c rest => simp [containsSub, hs]

theorem containsSub_of_occursIn {n h : List Char} (ho : OccursIn n h) :
    containsSub n h = true := by
  obtain ⟨p, t, rfl⟩ := ho
  induction p with
  | nil => exact containsSub_of_startsWithL (startsWithL_append_self n t)
  | cons c cs ih =>
    simp only [containsSub, Bool.or_eq_true]
    right
    simpa [List.append_assoc] using ih

theorem occursIn_of_containsSub {n h : List Char} (hc : containsSub n h = true) :
    OccursIn n h := by
  induction h with
  | nil =>
    simp only [containsSub] at hc
    obtain ⟨t, ht⟩ := startsWithL_exists hc
    exact ⟨[], t, ht⟩
  | cons c rest ih =>
    simp only [containsSub, Bool.or_eq_true] at hc
    rcases hc with hc | hc
    · obtain ⟨t, ht⟩ := startsWithL_exists hc
      exact ⟨[], t, ht⟩
    · obtain ⟨p, t, ht⟩ := ih hc
      exact ⟨c :: p, t, by simp [ht]⟩

theorem mem_of_occursIn {n h : List Char} {c : Char} (ho : OccursIn n h) (hm : c ∈ n) :
    c ∈ h := by
  obtain ⟨p, t, rfl⟩ := ho
  simp [hm]

/-- A character of a substring of `low` is a character of `low`. -/
theorem char_mem_of_strContains {low u : String} {c : Char}
    (hc : strContains low u = true) (hm : c ∈ u.data) : c ∈ low.data :=
  mem_of_occursIn (occursIn_of_containsSub hc) hm

namespace GerritApi

/-! ### C3, C4, C5 : `decode_response` -/

/-- C3: for a 200 response whose string body is the magic followed by text
that `json.loads` parses, `decode_response` returns exactly the parsed
value. -/
theorem decode_response_magic_json (parse : String → Option PyVal) (s : String)
    (j : PyVal) (hp : parse s = Option.some j) :
    decode_response parse (Option.some 200) (PyVal.str (gerritMagic ++ s)) = j := by
  have hcode : (strOfCode (Option.some 200) == "200") = true := rfl
  have hdata : (gerritMagic ++ s).data = gerritMagic.data ++ s.data := data_append _ _
  have hstart : startsWithL gerritMagic.data (gerritMagic ++ s).data = true := by
    rw [hdata]; exact startsWithL_append_self _ _
  have hdrop : (⟨(gerritMagic ++ s).data.drop gerritMagic.data.length⟩ : String) = s := by
    rw [hdata, List.drop_left]
  simp only [decode_response, hcode, if_true, hstart, hdrop, hp]

/-- C3 witness. -/
theorem decode_response_magic_json_witness :
    decode_response (fun t => if t == "[]" then Option.some (PyVal.list []) else Option.none)
      (Option.some 200) (PyVal.str (gerritMagic ++ "[]")) = PyVal.list [] :=
  decode_response_magic_json _ "[]" (PyVal.list []) (by rfl)

/-- C4: a body that is not a string starting with the magic (any status
code) is returned unchanged. -/
theorem decode_response_no_magic_id (parse : String → Option PyVal)
    (code : Option Int) (body : PyVal)
    (hb : ∀ s, body = PyVal.str s → startsWithL gerritMagic.data s.data = false) :
    decode_response parse code body = body := by
  cases body with
  | str s =>
    have hs := hb s rfl
    simp only [decode_response, hs]
    split <;> simp
  | none => rfl
  | bool b => rfl
  | int n => rfl
  | list xs => rfl
  | dict kvs => rfl

/-- C4 witness: a failed (404) textual body comes back unchanged. -/
theorem decode_response_no_magic_id_witness :
    decode_response (fun _ => Option.none) (Option.some 404) (PyVal.str "Not Found") =
      PyVal.str "Not Found" :=
  decode_response_no_magic_id _ _ _ (by
    intro s hs
    injection hs with h
    subst h
    rfl)

/-- C5: `decode_response` is total and its result is always one of: the raw
body unchanged, the magic-stripped string (parse failure), or the value
`json.loads` produced for the stripped string. -/
theorem decode_response_total_trichotomy (parse : String → Option PyVal)
    (code : Option Int) (body : PyVal) :
    decode_response parse code body = body ∨
    (∃ s, body = PyVal.str s ∧
      decode_response parse code body =
        PyVal.str (⟨s.data.drop gerritMagic.data.length⟩ : String)) ∨
    (∃ s j, body = PyVal.str s ∧
      parse (⟨s.data.drop gerritMagic.data.length⟩ : String) = Option.some j ∧
      decode_response parse code body = j) := by
  cases body with
  | str s =>
    by_cases hcode : (strOfCode code == "200") = true
    · by_cases hmagic : startsWithL gerritMagic.data s.data = true
      · cases hp : parse (⟨s.data.drop gerritMagic.data.length⟩ : String) with
        | some j =>
          refine Or.inr (Or.inr ⟨s, j, rfl, hp, ?_⟩)
          simp only [decode_response, hcode, if_true, hmagic, hp]
        | none =>
          refine Or.inr (Or.inl ⟨s, rfl, ?_⟩)
          simp only [decode_response, hcode, if_true, hmagic, hp]
      · refine Or.inl ?_
        have hm : startsWithL gerritMagic.data s.data = false := by
          simpa using hmagic
        simp [decode_response, hcode, hm]
    · refine Or.inl ?_
      simp only [decode_response]
      rw [if_neg hcode]
  | none => exact Or.inl rfl
  | bool b => exact Or.inl rfl
  | int n => exact Or.inl rfl
  | list xs => exact Or.inl rfl
  | dict kvs => exact Or.inl rfl

end GerritApi

namespace GerritApi

/-! ### C2 : the recursion has no bound of its own -/

theorem hasMore_moreRec : hasMore [moreRec] = true := by decide

/-- Against a server that always signals continuation, `no_limit_mocker`
consumes every amount of fuel without returning. -/
theorem no_limit_mocker_always_none :
    ∀ (fuel : Nat) (acc : List PyDict) (limit : Nat),
    no_limit_mocker alwaysMoreServer fuel [moreRec] acc limit = Option.none := by
  intro fuel
  induction fuel with
  | zero => intro acc limit; rfl
  | succ f ih =>
    intro acc limit
    simp only [no_limit_mocker, hasMore_moreRec, if_true]
    have hs : alwaysMoreServer (limit + 500) = [moreRec] := rfl
    rw [hs, ih]

/-- C2 amended: the recursion in `no_limit_mocker` is unbounded — against a
server that declares continuation on every page, the pagination engine does
not stop within any finite number of iterations (the code configures no
safety bound). -/
theorem no_limit_mocker_unbounded (fuel : Nat) :
    paginate_from alwaysMoreServer fuel = Option.none := by
  simp only [paginate_from]
  have h0 : alwaysMoreServer 0 = [moreRec] := rfl
  rw [h0, no_limit_mocker_always_none]

/-- C2 counterexample: granted 1000 iterations — far beyond any plausible
configured bound, and the code configures none — the engine still has not
stopped against the always-continuing server. -/
theorem no_limit_mocker_no_bound_cex :
    paginate_from alwaysMoreServer 1000 = Option.none := by
  simp only [paginate_from]
  have h0 : alwaysMoreServer 0 = [moreRec] := rfl
  rw [h0, no_limit_mocker_always_none]

end GerritApi

namespace GerritApi

/-! ### C1 : a finite marker chain -/

/-- Running `no_limit_mocker` along a chain: the current response carries
the marker exactly when pages remain, every remaining page but the last
carries it, the last does not, and the server holds the remaining pages at
the successive offsets (empty afterwards).  The run returns the
accumulator extended with all remaining pages in order — plus one extra
(empty) trailing fetch — and requests exactly the offsets
`base+500, …, base+500*(T.length+1)`. -/
theorem no_limit_mocker_chain (server : Nat → List PyDict) :
    ∀ (T : List (List PyDict)) (base fuel : Nat) (acc r : List PyDict),
    T.length < fuel →
    hasMore r = !T.isEmpty →
    (∀ i (h : i < T.length), hasMore (T.get ⟨i, h⟩) = decide (i + 1 < T.length)) →
    (∀ i, i ≤ T.length → server (base + 500 * (i + 1)) = T.getD i []) →
    no_limit_mocker server fuel r acc base =
      Option.some (acc ++ T.join,
        (List.range (T.length + 1)).map (fun i => base + 500 * (i + 1))) := by
  intro T
  induction T with
  | nil =>
    intro base fuel acc r hfuel hr hT hs
    cases fuel with
    | zero => exact absurd hfuel (by omega)
    | succ f =>
      have hr' : hasMore r = false := by rw [hr]; rfl
      have hsrv : server (base + 500) = [] := by
        have h0 := hs 0 (Nat.le_refl 0)
        simpa using h0
      simp [no_limit_mocker, hr', hsrv, List.range_succ]
  | cons Q T' ih =>
    intro base fuel acc r hfuel hr hT hs
    cases fuel with
    | zero => exact absurd hfuel (by omega)
    | succ f =>
      have hr' : hasMore r = true := by rw [hr]; rfl
      have hQ : server (base + 500) = Q := by
        have h0 := hs 0 (by omega)
        simpa using h0
      have hQmark : hasMore Q = !T'.isEmpty := by
        have h0 := hT 0 (by simp)
        simp only [List.get] at h0
        rw [h0]
        cases T' with
        | nil => rfl
        | cons a as => simp
      have hT' : ∀ i (h : i < T'.length),
          hasMore (T'.get ⟨i, h⟩) = decide (i + 1 < T'.length) := by
        intro i h
        have hi := hT (i + 1) (by simpa using Nat.succ_lt_succ h)
        simp only [List.get, List.length_cons] at hi
        rw [hi]
        have : (i + 1 + 1 < T'.length + 1) ↔ (i + 1 < T'.length) := by omega
        rw [decide_eq_decide.mpr this]
      have hs' : ∀ i, i ≤ T'.length →
          server (base + 500 + 500 * (i + 1)) = T'.getD i [] := by
        intro i h
        have hi := hs (i + 1) (by simpa using Nat.succ_le_succ h)
        have harg : base + 500 * (i + 1 + 1) = base + 500 + 500 * (i + 1) := by ring
        rw [harg] at hi
        simpa using hi
      have hrec := ih (base + 500) f (acc ++ Q) Q
        (by simpa using Nat.lt_of_succ_lt_succ hfuel) hQmark hT' hs'
      simp only [no_limit_mocker, hr', if_true]
      rw [hQ, hrec]
      have hjoin : (acc ++ Q) ++ T'.join = acc ++ (Q :: T').join := by
        simp [List.join]
      have htrace :
          (List.range ((Q :: T').length + 1)).map (fun i => base + 500 * (i + 1)) =
            (base + 500) :: (List.range (T'.length + 1)).map
              (fun i => base + 500 + 500 * (i + 1)) := by
        rw [List.length_cons, List.range_succ_eq_map, List.map_cons, List.map_map]
        have hfun : ((fun i => base + 500 * (i + 1)) ∘ Nat.succ) =
            (fun i => base + 500 + 500 * (i + 1)) := by
          funext i
          simp only [Function.comp, Nat.succ_eq_add_one]
          ring
        rw [hfun]
      rw [hjoin, htrace]

end GerritApi

namespace GerritApi

/-- C1 amended: for a page sequence with continuation markers on pages
1..N-1 and none on page N (the server holding exactly these pages), the
merged output is the concatenation of the N pages — length the sum of the
page record counts, ordered page-by-page and within each page in page
order — but the engine issues exactly one additional trailing request at
the next offset after the first page lacking the marker (whose empty
response contributes no records): the offsets requested are
`0, 500, …, 500*N`, not `0, 500, …, 500*(N-1)`. -/
theorem paginate_marker_chain (pages : List (List PyDict)) (fuel : Nat)
    (hne : pages ≠ [])
    (hmark : ∀ i (h : i < pages.length),
      hasMore (pages.get ⟨i, h⟩) = decide (i + 1 < pages.length))
    (hfuel : pages.length ≤ fuel) :
    paginate_from (pageServer pages) fuel =
      Option.some (pages.join,
        (List.range (pages.length + 1)).map (fun i => 500 * i)) := by
  cases pages with
  | nil => exact absurd rfl hne
  | cons P T =>
    have hserver0 : pageServer (P :: T) 0 = P := by simp [pageServer]
    have hrP : hasMore P = !T.isEmpty := by
      have h0 := hmark 0 (by simp)
      simp only [List.get] at h0
      rw [h0]
      cases T with
      | nil => rfl
      | cons a as => simp
    have hT : ∀ i (h : i < T.length),
        hasMore (T.get ⟨i, h⟩) = decide (i + 1 < T.length) := by
      intro i h
      have hi := hmark (i + 1) (by simpa using Nat.succ_lt_succ h)
      simp only [List.get, List.length_cons] at hi
      rw [hi]
      have : (i + 1 + 1 < T.length + 1) ↔ (i + 1 < T.length) := by omega
      rw [decide_eq_decide.mpr this]
    have hs : ∀ i, i ≤ T.length →
        pageServer (P :: T) (0 + 500 * (i + 1)) = T.getD i [] := by
      intro i h
      simp only [pageServer]
      have hdiv : (0 + 500 * (i + 1)) / 500 = i + 1 := by
        rw [Nat.zero_add, Nat.mul_div_cancel_left]
        norm_num
      rw [hdiv]
      rfl
    have hflen : T.length < fuel := by
      simp only [List.length_cons] at hfuel
      omega
    have hchain := no_limit_mocker_chain (pageServer (P :: T)) T 0 fuel [] P
      hflen hrP hT hs
    have htr : (List.range ((P :: T).length + 1)).map (fun i => 500 * i) =
        0 :: (List.range (T.length + 1)).map (fun i => 0 + 500 * (i + 1)) := by
      rw [List.length_cons, List.range_succ_eq_map, List.map_cons, List.map_map]
      have hfun : ((fun i => 500 * i) ∘ Nat.succ) = (fun i => 0 + 500 * (i + 1)) := by
        funext i
        simp only [Function.comp, Nat.succ_eq_add_one]
        ring
      rw [hfun]
    simp only [paginate_from, hserver0, hchain, List.nil_append]
    rw [htr]
    by_cases hj : T.join.isEmpty
    · have hjnil : T.join = [] := by simpa [List.isEmpty_iff] using hj
      simp [hj, hjnil, List.join]
    · have hjb : T.join.isEmpty = false := by simpa using hj
      simp [hjb, List.join]

/-- C1 witness: two pages (marker on the first only) merge to the two
records in order, with requests at offsets 0, 500 and the extra trailing
1000. -/
theorem paginate_marker_chain_witness :
    paginate_from (pageServer [[moreRec], [[("id", PyVal.str "a")]]]) 5 =
      Option.some ([moreRec, [("id", PyVal.str "a")]], [0, 500, 1000]) := by
  have h := paginate_marker_chain [[moreRec], [[("id", PyVal.str "a")]]] 5
    (by simp) (by decide) (by decide)
  exact h.trans (by rfl)

/-- C1 counterexample: a single page without the marker.  The claim says no
request is issued after the first page lacking the marker, so the request
trace should be `[0]`; the engine in fact issues a second request at offset
500 (the else-branch of `no_limit_mocker` always fetches one more page). -/
theorem paginate_extra_request_cex :
    paginate_from (pageServer [[[("id", PyVal.str "a")]]]) 3 =
      Option.some ([[("id", PyVal.str "a")]], [0, 500]) ∧
    ([0, 500] : List Nat) ≠ [0] := by
  exact ⟨by rfl, by decide⟩

end GerritApi

/-! ### C6 : what the continuation test actually detects -/

/-- A key of a dict entry occurs contiguously in the printed entries. -/
theorem occursIn_key_entries (k : String) (v : PyVal) :
    ∀ (r : PyDict), (k, v) ∈ r → OccursIn k.data (pyReprEntries r).data := by
  intro r
  induction r with
  | nil => intro h; cases h
  | cons kv rest ih =>
    obtain ⟨k1, v1⟩ := kv
    intro h
    rcases List.mem_cons.mp h with heq | hmem
    · have hk1 : k1 = k := by injection heq.symm
      have hv1 : v1 = v := by injection heq.symm
      subst hk1
      subst hv1
      cases rest with
      | nil =>
        refine ⟨squote.data, (squote ++ ": " ++ pyReprVal v1).data, ?_⟩
        simp [pyReprEntries, data_append, List.append_assoc]
      | cons kv2 rest2 =>
        refine ⟨squote.data,
          (squote ++ ": " ++ pyReprVal v1 ++ ", " ++ pyReprEntries (kv2 :: rest2)).data, ?_⟩
        simp [pyReprEntries, data_append, List.append_assoc]
    · cases rest with
      | nil => cases hmem
      | cons kv2 rest2 =>
        obtain ⟨p, t, hpt⟩ := ih hmem
        refine ⟨(squote ++ k1 ++ squote ++ ": " ++ pyReprVal v1 ++ ", ").data ++ p, t, ?_⟩
        simp [pyReprEntries, data_append, List.append_assoc, hpt]

/-- The printed record occurs contiguously in the printed page records. -/
theorem occursIn_rec_recs (r : PyDict) :
    ∀ (page : List PyDict), r ∈ page → OccursIn (pyReprRec r).data (pyReprRecs page).data := by
  intro page
  induction page with
  | nil => intro h; cases h
  | cons r2 rest ih =>
    intro h
    rcases List.mem_cons.mp h with heq | hmem
    · subst heq
      cases rest with
      | nil => exact occursIn_self _
      | cons r3 rest2 =>
        refine ⟨[], (", " ++ pyReprRecs (r3 :: rest2)).data, ?_⟩
        simp [pyReprRecs, data_append, List.append_assoc]
    · cases rest with
      | nil => cases hmem
      | cons r3 rest2 =>
        obtain ⟨p, t, hpt⟩ := ih hmem
        refine ⟨(pyReprRec r2 ++ ", ").data ++ p, t, ?_⟩
        simp [pyReprRecs, data_append, List.append_assoc, hpt]

namespace GerritApi

/-- C6 amended: the continuation test is `"_more_" in str(response)` — a
substring test on the serialized whole response, not a truth-valued-field
scan of the last record.  In particular any record anywhere in the page
with a field whose name contains `_more_` triggers continuation regardless
of the field's value, and (counterexample) a marker-free page whose string
content merely mentions `_more_` triggers it too. -/
theorem hasMore_key_anywhere (page : List PyDict) (r : PyDict) (k : String) (v : PyVal)
    (hr : r ∈ page) (hkv : (k, v) ∈ r) (hk : strContains k moreNeedle = true) :
    hasMore page = true := by
  have h1 : OccursIn moreNeedle.data k.data := occursIn_of_containsSub hk
  have h2 : OccursIn k.data (pyReprEntries r).data := occursIn_key_entries k v r hkv
  have h3 : OccursIn (pyReprEntries r).data (pyReprRec r).data := by
    refine ⟨"\x7b".data, "\x7d".data, ?_⟩
    simp [pyReprRec, data_append, List.append_assoc]
  have h4 : OccursIn (pyReprRec r).data (pyReprRecs page).data := occursIn_rec_recs r page hr
  have h5 : OccursIn (pyReprRecs page).data (pyReprPage page).data := by
    refine ⟨"[".data, "]".data, ?_⟩
    simp [pyReprPage, data_append, List.append_assoc]
  have hfin : OccursIn moreNeedle.data (pyReprPage page).data :=
    occursIn_trans (occursIn_trans (occursIn_trans (occursIn_trans h1 h2) h3) h4) h5
  simp only [hasMore, strContains]
  exact containsSub_of_occursIn hfin

/-- C6 witness: a page whose only record carries `_more_changes: False` —
the marker field with a falsy value, which the spec's rule would call
final — still signals continuation. -/
theorem hasMore_key_anywhere_witness :
    hasMore [[("_more_changes", PyVal.bool false)]] = true :=
  hasMore_key_anywhere [[("_more_changes", PyVal.bool false)]]
    [("_more_changes", PyVal.bool false)] "_more_changes" (PyVal.bool false)
    (by simp) (by simp) (by rfl)

/-- C6 counterexample: a two-record page in which no record carries any
continuation-marker field (and the last record is plain), yet the engine
treats it as signaling more results, because a string value mentions
`_more_`; the spec-modelled last-record truth-valued scan says final. -/
theorem hasMore_content_based_cex :
    hasMore [[("subject", PyVal.str "read_more_here")], [("id", PyVal.str "a")]] = true ∧
    specHasMore [[("subject", PyVal.str "read_more_here")], [("id", PyVal.str "a")]] = false := by
  exact ⟨by rfl, by rfl⟩

end GerritApi

/-! ### C7, C8 : duration parsing -/

theorem parseDigits_isDigit :
    ∀ (l : List Char) (acc n : Nat), parseDigits l acc = Option.some n →
      ∀ c ∈ l, c.isDigit = true := by
  intro l
  induction l with
  | nil => intro acc n h c hc; cases hc
  | cons a as ih =>
    intro acc n h c hc
    by_cases ha : a.isDigit = true
    · simp only [parseDigits, ha, if_true] at h
      rcases List.mem_cons.mp hc with heq | hmem
      · subst heq; exact ha
      · exact ih _ _ h c hmem
    · have ha' : a.isDigit = false := by simpa using ha
      simp [parseDigits, ha'] at h

/-- Every character of a string `int()` accepts is a digit or a sign. -/
theorem pyInt_chars :
    ∀ (s : String) (n : Int), pyInt s = Option.some n →
      ∀ c ∈ s.data, (c.isDigit || c == Char.ofNat 45 || c == Char.ofNat 43) = true := by
  intro s n h c hc
  simp only [pyInt] at h
  cases hdata : s.data with
  | nil => rw [hdata] at hc; cases hc
  | cons a as =>
    rw [hdata] at h hc
    by_cases ha45 : (a == Char.ofNat 45) = true
    · simp only [ha45, if_true] at h
      cases as with
      | nil => cases h
      | cons b bs =>
        cases hpd : parseDigits (b :: bs) 0 with
        | none => rw [hpd] at h; cases h
        | some m =>
          rcases List.mem_cons.mp hc with heq | hmem
          · subst heq; simp [ha45]
          · have := parseDigits_isDigit (b :: bs) 0 m hpd c hmem
            simp [this]
    · have ha45' : (a == Char.ofNat 45) = false := by simpa using ha45
      by_cases ha43 : (a == Char.ofNat 43) = true
      · simp only [ha45', ha43, if_true, if_false, Bool.false_eq_true] at h
        cases as with
        | nil => cases h
        | cons b bs =>
          cases hpd : parseDigits (b :: bs) 0 with
          | none => rw [hpd] at h; cases h
          | some m =>
            rcases List.mem_cons.mp hc with heq | hmem
            · subst heq; simp [ha43]
            · have := parseDigits_isDigit (b :: bs) 0 m hpd c hmem
              simp [this]
      · have ha43' : (a == Char.ofNat 43) = false := by simpa using ha43
        simp only [ha45', ha43', Bool.false_eq_true, if_false] at h
        cases hpd : parseDigits (a :: as) 0 with
        | none => rw [hpd] at h; cases h
        | some m =>
          have := parseDigits_isDigit (a :: as) 0 m hpd c hc
          simp [this]

theorem mem_dropWhile_of_neg (p : Char → Bool) :
    ∀ (l : List Char) (c : Char), c ∈ l → p c = false → c ∈ l.dropWhile p := by
  intro l
  induction l with
  | nil => intro c hc _; cases hc
  | cons a as ih =>
    intro c hc hp
    rw [List.dropWhile_cons]
    by_cases ha : p a = true
    · rw [ha, if_pos rfl]
      rcases List.mem_cons.mp hc with heq | hmem
      · subst heq; rw [hp] at ha; cases ha
      · exact ih c hmem hp
    · have ha' : p a = false := by simpa using ha
      rw [ha']
      simpa using hc

/-- `strip` never removes a character outside its strip set. -/
theorem mem_stripChars {s cs : String} {c : Char}
    (hmem : c ∈ s.data) (hnot : charIn c cs = false) :
    c ∈ (stripChars s cs).data := by
  simp only [stripChars]
  rw [List.mem_reverse]
  apply mem_dropWhile_of_neg _ _ c _ hnot
  rw [List.mem_reverse]
  exact mem_dropWhile_of_neg _ _ c hmem hnot

/-- If some character of `low` survives the strip (is outside the strip
set) and is neither a digit nor a sign, `int(low.strip(cs))` raises. -/
theorem pyInt_stripChars_none (low cs : String) (c : Char)
    (hmem : c ∈ low.data) (hnot : charIn c cs = false)
    (hd : c.isDigit = false) (hm : (c == Char.ofNat 45) = false)
    (hp : (c == Char.ofNat 43) = false) :
    pyInt (stripChars low cs) = Option.none := by
  cases h : pyInt (stripChars low cs) with
  | none => rfl
  | some n =>
    exfalso
    have hall := pyInt_chars _ n h c (mem_stripChars hmem hnot)
    rw [hd, hm, hp] at hall
    simp at hall

namespace GerritApi

theorem minutes_branch_error_of_other (low : String) (stop : Int) (u : String) (c : Char)
    (hu : strContains low u = true) (hcu : c ∈ u.data)
    (hmin : strContains low "minutes" = true)
    (hnot : charIn c "minutes" = false) (hd : c.isDigit = false)
    (hm : (c == Char.ofNat 45) = false) (hp : (c == Char.ofNat 43) = false) :
    minutes_branch low stop = Except.error "ValueError" := by
  have hpi := pyInt_stripChars_none low "minutes" c (char_mem_of_strContains hu hcu)
    hnot hd hm hp
  simp [minutes_branch, hmin, hpi]

theorem chain_hours_error (low : String) (stop : Int) (u : String) (c : Char)
    (hu : strContains low u = true) (hcu : c ∈ u.data)
    (bh : strContains low "hours" = true)
    (hnot : charIn c "hours" = false) (hd : c.isDigit = false)
    (hm : (c == Char.ofNat 45) = false) (hp : (c == Char.ofNat 43) = false) :
    hours_days_months_chain low stop = Except.error "ValueError" := by
  have hpi := pyInt_stripChars_none low "hours" c (char_mem_of_strContains hu hcu)
    hnot hd hm hp
  simp [hours_days_months_chain, bh, hpi]

theorem chain_days_error (low : String) (stop : Int) (u : String) (c : Char)
    (hu : strContains low u = true) (hcu : c ∈ u.data)
    (bh : strContains low "hours" = false) (bd : strContains low "days" = true)
    (hnot : charIn c "days" = false) (hd : c.isDigit = false)
    (hm : (c == Char.ofNat 45) = false) (hp : (c == Char.ofNat 43) = false) :
    hours_days_months_chain low stop = Except.error "ValueError" := by
  have hpi := pyInt_stripChars_none low "days" c (char_mem_of_strContains hu hcu)
    hnot hd hm hp
  simp [hours_days_months_chain, bh, bd, hpi]

theorem gst_error_of_minutes (duration : String) (stop : Int) (e : String)
    (h : minutes_branch (strLower duration) stop = Except.error e) :
    get_start_time duration stop = Except.error e := by
  simp [get_start_time, h]

theorem gst_error_of_chain (duration : String) (stop : Int) (e : String) (st : Option Int)
    (h1 : minutes_branch (strLower duration) stop = Except.ok st)
    (h2 : hours_days_months_chain (strLower duration) stop = Except.error e) :
    get_start_time duration stop = Except.error e := by
  simp [get_start_time, h1, h2]

/-- C7 amended: when the lowercased duration string contains more than one
unit keyword, no unit's delta is computed at all — `get_start_time` raises
`ValueError`, because the first matching branch's `int(...)` necessarily
chokes on a letter of the other keyword that is outside the stripped
character set (and structurally the hours/days/months chain would overwrite
the minutes assignment anyway, so the checked order is not
minutes-first precedence). -/
theorem get_start_time_multi_unit_value_error (duration : String) (stop : Int)
    (htwo : 2 ≤ (matchedUnits duration).length) :
    get_start_time duration stop = Except.error "ValueError" := by
  by_cases bm : strContains (strLower duration) "minutes" = true
  · by_cases bh : strContains (strLower duration) "hours" = true
    · exact gst_error_of_minutes _ stop _
        (minutes_branch_error_of_other _ stop "hours" (Char.ofNat 104) bh (by decide) bm
          (by decide) (by decide) (by decide) (by decide))
    · by_cases bd : strContains (strLower duration) "days" = true
      · exact gst_error_of_minutes _ stop _
          (minutes_branch_error_of_other _ stop "days" (Char.ofNat 100) bd (by decide) bm
            (by decide) (by decide) (by decide) (by decide))
      · by_cases bmo : strContains (strLower duration) "months" = true
        · exact gst_error_of_minutes _ stop _
            (minutes_branch_error_of_other _ stop "months" (Char.ofNat 104) bmo (by decide) bm
              (by decide) (by decide) (by decide) (by decide))
        · have bh0 : strContains (strLower duration) "hours" = false := by simpa using bh
          have bd0 : strContains (strLower duration) "days" = false := by simpa using bd
          have bmo0 : strContains (strLower duration) "months" = false := by simpa using bmo
          exact absurd htwo (by simp [matchedUnits, unit_keywords, bm, bh0, bd0, bmo0])
  · have bm0 : strContains (strLower duration) "minutes" = false := by simpa using bm
    have hok : minutes_branch (strLower duration) stop = Except.ok Option.none := by
      simp [minutes_branch, bm0]
    by_cases bh : strContains (strLower duration) "hours" = true
    · by_cases bd : strContains (strLower duration) "days" = true
      · exact gst_error_of_chain _ stop _ _ hok
          (chain_hours_error _ stop "days" (Char.ofNat 100) bd (by decide) bh
            (by decide) (by decide) (by decide) (by decide))
      · by_cases bmo : strContains (strLower duration) "months" = true
        · exact gst_error_of_chain _ stop _ _ hok
            (chain_hours_error _ stop "months" (Char.ofNat 109) bmo (by decide) bh
              (by decide) (by decide) (by decide) (by decide))
        · have bd0 : strContains (strLower duration) "days" = false := by simpa using bd
          have bmo0 : strContains (strLower duration) "months" = false := by simpa using bmo
          exact absurd htwo (by simp [matchedUnits, unit_keywords, bm0, bh, bd0, bmo0])
    · have bh0 : strContains (strLower duration) "hours" = false := by simpa using bh
      by_cases bd : strContains (strLower duration) "days" = true
      · by_cases bmo : strContains (strLower duration) "months" = true
        · exact gst_error_of_chain _ stop _ _ hok
            (chain_days_error _ stop "months" (Char.ofNat 109) bmo (by decide) bh0 bd
              (by decide) (by decide) (by decide) (by decide))
        · have bmo0 : strContains (strLower duration) "months" = false := by simpa using bmo
          exact absurd htwo (by simp [matchedUnits, unit_keywords, bm0, bh0, bd, bmo0])
      · have bd0 : strContains (strLower duration) "days" = false := by simpa using bd
        by_cases bmo : strContains (strLower duration) "months" = true
        · exact absurd htwo (by simp [matchedUnits, unit_keywords, bm0, bh0, bd0, bmo])
        · have bmo0 : strContains (strLower duration) "months" = false := by simpa using bmo
          exact absurd htwo (by simp [matchedUnits, unit_keywords, bm0, bh0, bd0, bmo0])

/-- C7 witness. -/
theorem get_start_time_multi_unit_value_error_witness :
    2 ≤ (matchedUnits "10HoursDays").length ∧
    get_start_time "10HoursDays" 0 = Except.error "ValueError" :=
  ⟨by decide, get_start_time_multi_unit_value_error "10HoursDays" 0 (by decide)⟩

/-- C7 counterexample: `"2MinutesHours"` contains minutes (priority-first
per the claim) and hours; the claimed precedence would compute
`stop - 2 minutes`, but the code raises `ValueError` (the minutes branch's
`int("2minuteshour")` after stripping). -/
theorem get_start_time_multi_unit_cex :
    get_start_time "2MinutesHours" 0 = Except.error "ValueError" ∧
    get_start_time "2MinutesHours" 0 ≠ Except.ok (0 - 60 * 2) := by
  refine ⟨by rfl, ?_⟩
  intro hcontra
  rw [show get_start_time "2MinutesHours" 0 = Except.error "ValueError" from rfl] at hcontra
  exact Except.noConfusion hcontra

/-- C8: the three single-unit examples of the spec hold, but a months
duration raises `TypeError` — `datetime.timedelta` has no `months` keyword
argument (line 144), although the module's own CLI help advertises Months
support. -/
theorem get_start_time_examples_and_months_bug :
    get_start_time "24Hours" 0 = Except.ok (-86400) ∧
    get_start_time "2Days" 0 = Except.ok (-172800) ∧
    get_start_time "120Minutes" 0 = Except.ok (-7200) ∧
    get_start_time "1Months" 0 = Except.error "TypeError" := by
  exact ⟨by rfl, by rfl, by rfl, by rfl⟩

end GerritApi


namespace GerritApi

/-! ### C9 : reference resolution -/

theorem dictGet_map_set_ne (k q : String) (v : PyVal) (hne : (k == q) = false) :
    ∀ (r : PyDict),
      dictGet (r.map (fun kv => if kv.1 == k then (k, v) else kv)) q = dictGet r q := by
  intro r
  induction r with
  | nil => rfl
  | cons kv rest ih =>
    by_cases hkv : (kv.1 == k) = true
    · have hk : kv.1 = k := by simpa using hkv
      have hq : (kv.1 == q) = false := by rw [hk]; exact hne
      simp only [List.map_cons, hkv, if_pos, dictGet, hne, hq, ih]
      simp
    · have hkv' : (kv.1 == k) = false := by simpa using hkv
      simp only [List.map_cons, hkv', Bool.false_eq_true, if_neg, dictGet, ih]
      simp

theorem dictGet_append_single_ne (k q : String) (v : PyVal) (hne : (k == q) = false) :
    ∀ (r : PyDict), dictGet (r ++ [(k, v)]) q = dictGet r q := by
  intro r
  induction r with
  | nil => simp [dictGet, hne]
  | cons kv rest ih => simp only [List.cons_append, dictGet, List.append_eq, ih]

/-- Assigning one key leaves lookups of a different key unchanged. -/
theorem dictGet_dictSet_ne (r : PyDict) (k q : String) (v : PyVal)
    (hne : (k == q) = false) : dictGet (dictSet r k v) q = dictGet r q := by
  simp only [dictSet]
  split
  · exact dictGet_map_set_ne k q v hne r
  · exact dictGet_append_single_ne k q v hne r

theorem pyGet_ok_of_isDict (x : PyVal) (k : String) (h : isDict x = true) :
    ∃ w, pyGet x k = Except.ok w := by
  cases x with
  | dict kvs => exact ⟨dictGet kvs k, rfl⟩
  | none => simp [isDict] at h
  | bool b => simp [isDict] at h
  | int n => simp [isDict] at h
  | str s => simp [isDict] at h
  | list xs => simp [isDict] at h

theorem resolve_commit_ok (lookup : PyVal → PyVal) (c : PyDict)
    (hl : ∀ v, isDict (lookup v) = true)
    (hco : isDict (dictGet c "owner") = true)
    (hcs : truthy (dictGet c "submitter") = true →
      isDict (dictGet c "submitter") = true) :
    ∃ c1, resolve_commit lookup c = Except.ok c1 := by
  obtain ⟨ownerId, ho⟩ := pyGet_ok_of_isDict _ "_account_id" hco
  obtain ⟨nm, hn⟩ := pyGet_ok_of_isDict (lookup ownerId) "name" (hl ownerId)
  have hsub : dictGet (dictSet c "owner" nm) "submitter" = dictGet c "submitter" :=
    dictGet_dictSet_ne c "owner" "submitter" nm (by decide)
  by_cases ht : truthy (dictGet c "submitter") = true
  · obtain ⟨subId, hs1⟩ := pyGet_ok_of_isDict _ "_account_id" (hcs ht)
    obtain ⟨nm2, hs2⟩ := pyGet_ok_of_isDict (lookup subId) "name" (hl subId)
    refine ⟨dictSet (dictSet c "owner" nm) "submitter" nm2, ?_⟩
    simp [resolve_commit, ho, hn, hsub, ht, hs1, hs2]
  · have ht' : truthy (dictGet c "submitter") = false := by simpa using ht
    refine ⟨dictSet c "owner" nm, ?_⟩
    simp [resolve_commit, ho, hn, hsub, ht']

/-- C9 amended: resolution never aborts — and processes every record — as
long as every lookup decodes to a dict (e.g. a json error object without a
`name`, which falls back to owner `None`), and each record's `owner`
reference (and truthy `submitter` reference) is itself a dict; but a
lookup decoding to a non-dict (`None` from a failed request, or an
unparsed string body) raises `AttributeError` at `.get("name")` and aborts
the whole operation (counterexample). -/
theorem resolve_all_dict_lookup_ok (lookup : PyVal → PyVal) (commits : List PyDict)
    (hl : ∀ v, isDict (lookup v) = true)
    (hc : ∀ r ∈ commits, isDict (dictGet r "owner") = true ∧
      (truthy (dictGet r "submitter") = true →
        isDict (dictGet r "submitter") = true)) :
    ∃ out, resolve_all lookup commits = Except.ok out ∧
      out.length = commits.length := by
  revert hc
  induction commits with
  | nil => intro hc; exact ⟨[], rfl, rfl⟩
  | cons c cs ih =>
    intro hc
    obtain ⟨h1, h2⟩ := hc c (by simp)
    obtain ⟨c1, hc1⟩ := resolve_commit_ok lookup c hl h1 h2
    obtain ⟨rest, hrest, hlen⟩ := ih (fun r hr => hc r (List.mem_cons_of_mem _ hr))
    refine ⟨c1 :: rest, ?_, by simp [hlen]⟩
    simp [resolve_all, hc1, hrest]

/-- A commit record with an `owner` account reference, as in the spec's
resolution example. -/
def cexCommit : PyDict := [("owner", PyVal.dict [("_account_id", PyVal.int 7)])]

/-- C9 witness: with every lookup decoding to a dict (here an empty json
object — an error body without `name`), resolution completes and keeps all
records. -/
theorem resolve_all_dict_lookup_ok_witness :
    ∃ out, resolve_all (fun _ => PyVal.dict []) [cexCommit] = Except.ok out ∧
      out.length = [cexCommit].length :=
  resolve_all_dict_lookup_ok (fun _ => PyVal.dict []) [cexCommit]
    (fun _ => rfl)
    (by
      intro r hr
      rw [List.mem_singleton] at hr
      subst hr
      refine ⟨by rfl, ?_⟩
      intro ht
      exact absurd ht (by decide))

/-- C9 counterexample: an account-detail lookup that decodes to `None`
(a failed request) makes the resolution loop raise `AttributeError` at
`.get("name")` and abort the operation — it does not fall back and
continue. -/
theorem resolve_all_crash_cex :
    resolve_all (fun _ => PyVal.none) [cexCommit] = Except.error "AttributeError" := by
  rfl

/-! ### C10 : the default reference instant -/

/-- C10: two calls at different wall-clock instants, neither passing
`stop`, query the identical window — the one computed from the instant
captured when the `def` executed — so the window does not track call
time. -/
theorem default_stop_definition_time (defTime t1 t2 : Int) (duration : String) :
    callWindow (defineGetCommits defTime) t1 duration Option.none =
      callWindow (defineGetCommits defTime) t2 duration Option.none ∧
    callStop (defineGetCommits defTime) t1 Option.none = defTime :=
  ⟨rfl, rfl⟩

end GerritApi
